import Mathlib

/-!
Verification development for the free-space manager of a page-based storage
engine: packed page spans (freespan.go) and the free list built on them
(freelist source file).  Machine integers are modelled as `Nat` with explicit
`% 2 ^ 64` where unsigned wraparound matters; functions that can panic in the
source return `Option` (with `none` for a panic).
-/

namespace Bolt

/-- Number of low bits holding the size field of a packed span. -/
def freespanSizeBits : Nat := 16

/-- Number of high bits holding the start field of a packed span. -/
def freespanStartBits : Nat := 64 - freespanSizeBits

/-- Shift amount separating the start field from the size field. -/
def freespanStartShift : Nat := freespanSizeBits

/-- Mask extracting the size field. -/
def freespanSizeMask : Nat := 2 ^ freespanSizeBits - 1

/-- Largest representable span size. -/
def freespanMaxSize : Nat := freespanSizeMask

/-- Largest representable span start. -/
def freespanMaxStart : Nat := 2 ^ freespanStartBits - 1

/-- A freespan packs (start, size) into one 64-bit word, start in the upper 48
bits, size in the lower 16 bits; modelled as a natural number below `2 ^ 64`. -/
abbrev freespan := Nat

/-- makeFreespan combines start and size into a packed span; the source panics
(modelled as `none`) when either field is out of range.  The source shifts
start left by 16 bits; here that is multiplication by `2 ^ 16`. -/
def mkFreespan (start size : Nat) : Option freespan :=
  if freespanMaxStart < start then none
  else if freespanMaxSize < size then none
  else some (start * 2 ^ freespanStartShift + size)

/-- start of a packed span: the upper 48 bits (the source shifts right by 16;
division by `2 ^ 16` is the same operation). -/
def fstart (s : freespan) : Nat := s / 2 ^ freespanStartShift

/-- size of a packed span: the lower 16 bits (the source masks with
`freespanSizeMask`; `% 2 ^ 16` is the same operation). -/
def fsize (s : freespan) : Nat := s % 2 ^ freespanSizeBits

/-- next returns the page id just after the span; defined for all spans. -/
def fnext (s : freespan) : Nat := fstart s + fsize s

/-- end returns the last page id of the span (`start + size - 1`).  The source
panics on size-0 spans; the only call site below guards size ≠ 0 first. -/
def fend (s : freespan) : Nat := fstart s + fsize s - 1

/-- uint64 subtraction `a - b` with wraparound, for `a, b < 2 ^ 64`. -/
def sub64 (a b : Nat) : Nat := (a + 2 ^ 64 - b) % 2 ^ 64

/-- contains reports whether span `s` contains page `pg`; the source computes
`uint64(pg - s.start()) < s.size()` with unsigned wraparound. -/
def fcontainsB (s : freespan) (pg : Nat) : Bool :=
  fsize s != 0 && sub64 pg (fstart s) < fsize s

/-- overlaps reports whether two spans intersect; the source swaps the
arguments so the smaller start comes first, then tests containment. -/
def overlapsB (s t : freespan) : Bool :=
  if fstart t < fstart s then fcontainsB t (fstart s) else fcontainsB s (fstart t)

/-- append combines span `s` with a later, non-overlapping span `t`,
returning up to two spans (0 is the "no span" sentinel); `none` models the
panics on out-of-order or overlapping inputs and on out-of-range results. -/
def appendSpan (s t : freespan) : Option (freespan × freespan) :=
  if fstart t < fstart s then none
  else if overlapsB s t then none
  else
    let s := if fsize s = 0 then 0 else s
    let t := if fsize t = 0 then 0 else t
    if s = 0 then some (t, 0)
    else if t = 0 then some (s, 0)
    else if fend s + 1 ≠ fstart t then some (s, t)
    else
      let sz := fsize s + fsize t
      if freespanMaxSize < sz then
        match mkFreespan (fstart s) freespanMaxSize,
              mkFreespan (fstart s + freespanMaxSize) (sz - freespanMaxSize) with
        | some u, some v => some (u, v)
        | _, _ => none
      else
        match mkFreespan (fstart s) sz with
        | some u => some (u, 0)
        | none => none

/-- go's sort.Search loop body: binary search on `[i, j)` for the first index
satisfying `f`.  `fuel` bounds the recursion structurally; every call below
passes fuel at least `j - i`, which the loop never exhausts since each step
halves the interval. -/
def searchLoop (f : Nat → Bool) : Nat → Nat → Nat → Nat
  | 0, i, _ => i
  | fuel + 1, i, j =>
    if i < j then
      let m := (i + j) / 2
      if f m then searchLoop f fuel i m else searchLoop f fuel (m + 1) j
    else i

/-- sort.Search(n, f): the smallest index in `[0, n)` at which `f` holds,
assuming `f` is monotone (false then true), else whatever the binary search
lands on. -/
def sortSearch (n : Nat) (f : Nat → Bool) : Nat := searchLoop f n 0 n

/-- freespans.contains: binary-search for the first span whose packed value
exceeds `makeFreespan pg 0`, then test only that span.  `none` models the
panic of `makeFreespan` on an out-of-range page id. -/
def spansContains (l : List freespan) (pg : Nat) : Option Bool :=
  match mkFreespan pg 0 with
  | none => none
  | some pspan =>
    let n := sortSearch l.length (fun i => decide (pspan < l.getD i 0))
    if n = l.length then some false
    else some (fcontainsB (l.getD n 0) pg)

/-- One iteration block of mergenorm's normalization walk, transcribed from
the source: `u, v := dst[out].append(dst[i])`, then either skip, store one
span advancing `out` by one, or store two spans advancing `out` by two.
`fuel` bounds the recursion structurally; callers pass `dst.length`, which is
never exhausted because `i` increases each step and the loop stops at
`dst.length`. -/
def normLoop : Nat → List freespan → Nat → Nat → Option (List freespan × Nat)
  | 0, dst, out, _ => some (dst, out)
  | fuel + 1, dst, out, i =>
    if i < dst.length then
      match appendSpan (dst.getD out 0) (dst.getD i 0) with
      | none => none
      | some (u, v) =>
        if u = 0 then normLoop fuel dst out (i + 1)
        else if v = 0 then normLoop fuel (dst.set out u) (out + 1) (i + 1)
        else normLoop fuel ((dst.set out u).set (out + 1) v) (out + 2) (i + 1)
    else some (dst, out)

/-- mergenorm: concatenate the input span lists, sort when more than one list
was given, run the normalization walk, and keep the first `out` entries. -/
def mergenorm (all : List (List freespan)) : Option (List freespan) :=
  let dst := all.flatten
  if dst.isEmpty then some dst
  else
    let dst := if 1 < all.length then List.insertionSort (· ≤ ·) dst else dst
    match normLoop dst.length dst 0 1 with
    | none => none
    | some (d, out) => some (d.take out)

/-- A page buffer: header fields plus the payload viewed as span words.  The
source overlays a raw byte buffer; only the fields the free list touches are
modelled. -/
structure page where
  id : Nat
  flags : Nat
  count : Nat
  overflow : Nat
  payload : List freespan
deriving DecidableEq

/-- The freelist: available spans plus the per-transaction pending map,
modelled as an association list in map iteration order. -/
structure freelist where
  spans : List freespan
  pending : List (Nat × List freespan)
deriving DecidableEq

/-- newFreelist returns an empty, initialized freelist. -/
def newFreelist : freelist := ⟨[], []⟩

/-- Go map read `f.pending[txid]`: the entry's list, or nil when absent. -/
def getPending : List (Nat × List freespan) → Nat → List freespan
  | [], _ => []
  | e :: rest, t => if e.1 = t then e.2 else getPending rest t

/-- Go map write `f.pending[txid] = spans`: replace the entry or add one. -/
def setPending : List (Nat × List freespan) → Nat → List freespan →
    List (Nat × List freespan)
  | [], t, v => [(t, v)]
  | e :: rest, t, v => if e.1 = t then (t, v) :: rest else e :: setPending rest t v

/-- freeSpanCount returns the number of available spans. -/
def freeSpanCount (f : freelist) : Nat := f.spans.length

/-- pendingSpanCount returns the number of pending spans over all entries. -/
def pendingSpanCount (f : freelist) : Nat :=
  (f.pending.map (fun e => e.2.length)).sum

/-- spancount returns the (possibly overcounted) number of spans. -/
def spancount (f : freelist) : Nat := freeSpanCount f + pendingSpanCount f

/-- copyall merges the available spans and every pending list into one
normalized, sorted list. -/
def copyall (f : freelist) : Option (List freespan) :=
  mergenorm (f.spans :: f.pending.map (fun e => e.2))

/-- allocate's scan over the available spans: skip spans smaller than `n`,
panic (`none`) on a span starting at page 0 or 1, and trim the length-`n`
prefix off the first fitting span. -/
def allocGo (n : Nat) : List freespan → Option (Nat × List freespan)
  | [] => some (0, [])
  | s :: rest =>
    if fstart s ≤ 1 then none
    else if fsize s < n then
      match allocGo n rest with
      | none => none
      | some (r, rest') => some (r, s :: rest')
    else
      match mkFreespan (fstart s + n) (fsize s - n) with
      | none => none
      | some w => some (fstart s, w :: rest)

/-- allocate returns the starting page id of a contiguous run of `n` pages,
or 0 when no available span is large enough. -/
def allocate (f : freelist) (n : Nat) : Option (Nat × freelist) :=
  match allocGo n f.spans with
  | none => none
  | some (r, sp) => some (r, { f with spans := sp })

/-- free's update of one pending list: binary-search the insertion point of
the new span, then append, merge forward, or insert the two-span result of
`append` (the source shifts the slice up and overwrites positions n, n+1). -/
def freeGo (spans : List freespan) (pspan : freespan) : Option (List freespan) :=
  let n := sortSearch spans.length (fun i => decide (pspan < spans.getD i 0))
  if n = spans.length then some (spans ++ [pspan])
  else
    match appendSpan pspan (spans.getD n 0) with
    | none => none
    | some (u, v) =>
      if v = 0 then some (spans.set n u)
      else some (spans.take n ++ u :: v :: spans.drop (n + 1))

/-- free records page `p.id` and its overflow pages as pending for `txid`;
the source panics on page ids 0 and 1 and propagates append's panics. -/
def free (f : freelist) (txid : Nat) (p : page) : Option freelist :=
  if p.id ≤ 1 then none
  else
    match mkFreespan p.id (p.overflow + 1) with
    | none => none
    | some pspan =>
      match freeGo (getPending f.pending txid) pspan with
      | none => none
      | some spans => some { f with pending := setPending f.pending txid spans }

/-- release moves every pending list with transaction id at most `txid` into
the available pool via mergenorm. -/
def release (f : freelist) (txid : Nat) : Option freelist :=
  match mergenorm
      (f.spans :: (f.pending.filter (fun e => decide (e.1 ≤ txid))).map (fun e => e.2)) with
  | none => none
  | some spans =>
    some { spans := spans, pending := f.pending.filter (fun e => !decide (e.1 ≤ txid)) }

/-- rollback discards the pending list of the given transaction. -/
def rollback (f : freelist) (txid : Nat) : freelist :=
  { f with pending := f.pending.filter (fun e => !decide (e.1 = txid)) }

/-- freed's scan of the pending map, first hit wins. -/
def freedPending : List (Nat × List freespan) → Nat → Option Bool
  | [], _ => some false
  | e :: rest, pg =>
    match spansContains e.2 pg with
    | none => none
    | some true => some true
    | some false => freedPending rest pg

/-- freed reports whether a page is on the free list (available or pending). -/
def freed (f : freelist) (pg : Nat) : Option Bool :=
  match spansContains f.spans pg with
  | none => none
  | some true => some true
  | some false => freedPending f.pending pg

/-- read's core once idx and count are fixed: take `count` words of payload,
start at offset `idx`, copy and sort them into the available list. -/
def readCore (f : freelist) (idx count : Nat) (p : page) : freelist :=
  if count = 0 then { f with spans := [] }
  else { f with spans := List.insertionSort (· ≤ ·) ((p.payload.take count).drop idx) }

/-- read initializes the available list from a freelist page; a count field of
0xFFFF means the true count is stored in the first payload word and spans
begin at offset 1. -/
def read (f : freelist) (p : page) : freelist :=
  if p.count = 0xFFFF then readCore f 1 (p.payload.getD 0 0) p
  else readCore f 0 p.count p

/-- Modelled from the spec: the page-kind flag bit marking a freelist page.
The constant's definition site is outside the given sources; its value is
irrelevant to every claim below. -/
def freelistPageFlag : Nat := 0x10

/-- write serializes available plus all pending spans onto a page: count 0
when empty, plain encoding below 0xFFFF spans, else count 0xFFFF with the
true span count in the first payload word.  Payload words beyond the written
region keep their previous contents, as in the raw buffer. -/
def write (f : freelist) (p : page) : Option page :=
  let p := { p with flags := p.flags ||| freelistPageFlag }
  let n := spancount f
  if n = 0 then some { p with count := 0 }
  else if n < 0xFFFF then
    match copyall f with
    | none => none
    | some res =>
      some { p with count := res.length, payload := res ++ p.payload.drop res.length }
  else
    match copyall f with
    | none => none
    | some res =>
      some { p with
              count := 0xFFFF
              payload := (res.length : freespan) :: (res ++ p.payload.drop (res.length + 1)) }

/-- reload's removal of one pending span `rm` from the available list:
binary-search, then the prefix / exact / suffix / middle-split cases; `none`
models the index-out-of-range panics and the explicit misuse panics. -/
def removeOne (spans : List freespan) (rm : freespan) : Option (List freespan) :=
  let n := sortSearch spans.length (fun i => decide (rm < spans.getD i 0))
  if n = spans.length then none
  else if fstart rm = fstart (spans.getD n 0) then
    match mkFreespan (fstart (spans.getD n 0) + fsize rm)
        (sub64 (fsize (spans.getD n 0)) (fsize rm)) with
    | none => none
    | some w => some (spans.set n w)
  else if n = 0 then none
  else
    let s := spans.getD (n - 1) 0
    if fstart s = fstart rm then
      if fsize rm ≠ fsize s then none
      else
        match mkFreespan (fstart s) 0 with
        | none => none
        | some w => some (spans.set (n - 1) w)
    else if ¬ fcontainsB s (fstart rm) then none
    else if fnext s = fnext rm then
      match mkFreespan (fstart s) (sub64 (fsize s) (fsize rm)) with
      | none => none
      | some w => some (spans.set (n - 1) w)
    else
      match mkFreespan (fstart s) (sub64 (fstart rm) (fstart s)),
            mkFreespan (fnext rm) (sub64 (fnext s) (fnext rm)) with
      | some a, some b => some (spans.take (n - 1) ++ a :: b :: spans.drop n)
      | _, _ => none

/-- reload's loop removing each merged pending span from the available list. -/
def removeAll (spans : List freespan) : List freespan → Option (List freespan)
  | [] => some spans
  | rm :: rest =>
    match removeOne spans rm with
    | none => none
    | some sp => removeAll sp rest

/-- reload reads the freelist from a page, merges all pending lists, and
removes every pending span from the freshly read available list. -/
def reload (f : freelist) (p : page) : Option freelist :=
  let f := read f p
  match mergenorm (f.pending.map (fun e => e.2)) with
  | none => none
  | some pend =>
    match removeAll f.spans pend with
    | none => none
    | some sp => some { f with spans := sp }

/-- Strict separation of two spans: the first ends strictly before the second
starts (sorted by start, not adjacent, not overlapping). -/
def spanR (a b : freespan) : Prop := fstart a + fsize a < fstart b

instance : DecidableRel spanR := fun a b => inferInstanceAs (Decidable (_ < _))

/-- Page `p` lies in some span of the list. -/
def inSpans (l : List freespan) (p : Nat) : Prop :=
  ∃ s ∈ l, fstart s ≤ p ∧ p < fstart s + fsize s

end Bolt

namespace Bolt

theorem fsize_lt (s : freespan) : fsize s < 2 ^ 16 := by
  simp only [fsize, freespanSizeBits]
  exact Nat.mod_lt _ (by norm_num)

theorem fstart_pack (a b : Nat) (hb : b < 2 ^ 16) :
    fstart (a * 2 ^ freespanStartShift + b) = a := by
  simp only [fstart, freespanStartShift, freespanSizeBits]
  rw [Nat.mul_comm, Nat.mul_add_div (by norm_num), Nat.div_eq_of_lt hb, Nat.add_zero]

theorem fsize_pack (a b : Nat) (hb : b < 2 ^ 16) :
    fsize (a * 2 ^ freespanStartShift + b) = b := by
  simp only [fsize, freespanStartShift, freespanSizeBits]
  rw [Nat.mul_comm, Nat.mul_add_mod, Nat.mod_eq_of_lt hb]

theorem pack_eq (s : freespan) : fstart s * 2 ^ freespanStartShift + fsize s = s := by
  simp only [fstart, fsize, freespanStartShift, freespanSizeBits]
  rw [Nat.mul_comm]
  exact Nat.div_add_mod s (2 ^ 16)

theorem getPending_setPending_ne (m : List (Nat × List freespan)) (t u : Nat)
    (v : List freespan) (h : u ≠ t) :
    getPending (setPending m t v) u = getPending m u := by
  induction m with
  | nil => simp [setPending, getPending, Ne.symm h]
  | cons e rest ih =>
    by_cases he : e.1 = t
    · simp [setPending, he, getPending, Ne.symm h]
    · simp [setPending, he, getPending, ih]

end Bolt

namespace Bolt

/-- C1: refuted as stated — mergenorm applied to the single already-sorted
span list [(5,3)] (packed 327683) returns the empty list, losing pages 5-7:
the normalization walk leaves `out = 0` for a one-element input and the
result is truncated to `dst[:0]`. -/
theorem mergenorm_drops_lone_span :
    mergenorm [[327683]] = some [] ∧
      fstart 327683 = 5 ∧ fsize 327683 = 3 ∧ fcontainsB 327683 5 = true := by decide

/-- C2: refuted as stated — writing the free list with available [(5,3)] and
no pending spans, then reading the written page into a fresh free list,
yields count 0 and an empty available list, although the original free list's
pages {5,6,7} are nonempty (write's copyall goes through the broken
mergenorm). -/
theorem write_read_loses_pages :
    (write ⟨[327683], []⟩ ⟨0, 0, 0, 0, []⟩).map
        (fun q => (q.count, (read newFreelist q).spans)) = some (0, []) ∧
      fcontainsB 327683 5 = true := by decide

/-- C4: refuted as stated — the sorted-list membership test on the list
[(10,5)] (packed 655365) answers false for page 12 even though the span
(10,5) contains page 12; `freed` inherits the same answer.  The binary search
finds the first span greater than make(12,0) and only tests that span, never
the preceding one that actually contains the page. -/
theorem spansContains_misses_interior_page :
    spansContains [655365] 12 = some false ∧ fcontainsB 655365 12 = true ∧
      freed ⟨[655365], []⟩ 12 = some false := by decide

/-- C5: refuted as stated — from a fresh free list, free(1, page 2),
free(1, page 3), free(1, page 5) followed by release(1) leaves available =
[(2,2),(3,1),(5,1)], whose first two spans overlap (2+2 is not < 3), so the
sorted/no-adjacent invariant does not hold after the public operation
`release` returns. -/
theorem release_breaks_normalization :
    (((free newFreelist 1 ⟨2, 0, 0, 0, []⟩).bind (fun f => free f 1 ⟨3, 0, 0, 0, []⟩)).bind
          (fun f => free f 1 ⟨5, 0, 0, 0, []⟩)).bind (fun f => release f 1) =
        some ⟨[131074, 196609, 327681], []⟩ ∧
      ¬ spanR 131074 196609 ∧ fnext 131074 = 4 ∧ fstart 196609 = 3 := by decide

/-- C6: refuted as stated — page 12 is already recorded as freed (available
holds (12,1), packed 786433), yet free(5, page 12) returns normally, adding
(12,1) to pending[5] instead of panicking: `free` never consults the
available list or other transactions' pending lists. -/
theorem free_double_free_no_panic :
    freed ⟨[786433], []⟩ 12 = some true ∧
      free ⟨[786433], []⟩ 5 ⟨12, 0, 0, 0, []⟩ = some ⟨[786433], [(5, [786433])]⟩ := by decide

/-- C9: refuted as stated — with pending[1] = [(5,1)] (packed 327681) and an
on-disk page whose single span is (5,3) (packed 327683), the pending span is
a sub-span of the available span, yet reload leaves available = [(5,3)]:
the pending union is computed with the broken mergenorm, which returns the
empty list for the one-element pending collection, so nothing is removed and
page 5 stays both pending and available. -/
theorem reload_keeps_pending_pages :
    reload ⟨[], [(1, [327681])]⟩ ⟨0, 0, 1, 0, [327683]⟩ =
        some ⟨[327683], [(1, [327681])]⟩ ∧
      fcontainsB 327683 5 = true ∧ fcontainsB 327681 5 = true ∧
      fstart 327681 = 5 ∧ fsize 327681 = 1 ∧ fstart 327683 = 5 ∧ fsize 327683 = 3 := by
  decide

/-- C3 counterexample: the available list holding the single span
(2^48-1, 3) satisfies the sortedness invariant (one span, positive length),
and 3 ≤ its length, yet allocate(3) panics (modelled as `none`) instead of
returning the span's start: trimming the prefix calls makeFreespan with a
start of 2^48+2, beyond the 48-bit bound. -/
theorem allocate_panic_near_max_start :
    allocate ⟨[(2 ^ 48 - 1) * 2 ^ 16 + 3], []⟩ 3 = none ∧
      fsize ((2 ^ 48 - 1) * 2 ^ 16 + 3) = 3 ∧
      2 ≤ fstart ((2 ^ 48 - 1) * 2 ^ 16 + 3) := by decide

/-- C8 counterexample: with available = [(3,5)] (packed 196613), allocate(0)
returns page 3 — the start of the first span — rather than the claimed
no-allocation sentinel 0 (the size test `size < 0` never skips a span), while
leaving the state unchanged. -/
theorem allocate_zero_returns_first_start :
    allocate ⟨[196613], []⟩ 0 = some (3, ⟨[196613], []⟩) ∧
      allocate ⟨[196613], []⟩ 0 ≠ some (0, ⟨[196613], []⟩) := by decide

end Bolt

namespace Bolt

/-- C10: free(txid, p) with p.id > 1, when it returns, changes nothing but
the pending list of `txid`: the available spans and every other
transaction's pending list are exactly as before. -/
theorem free_frame (f f' : freelist) (t : Nat) (p : page) (hid : 1 < p.id)
    (hfree : free f t p = some f') :
    f'.spans = f.spans ∧
      ∀ u, u ≠ t → getPending f'.pending u = getPending f.pending u := by
  unfold free at hfree
  rw [if_neg (by omega : ¬ p.id ≤ 1)] at hfree
  cases hmk : mkFreespan p.id (p.overflow + 1) with
  | none => rw [hmk] at hfree; cases hfree
  | some pspan =>
    rw [hmk] at hfree
    dsimp only at hfree
    cases hgo : freeGo (getPending f.pending t) pspan with
    | none => rw [hgo] at hfree; cases hfree
    | some spans =>
      rw [hgo] at hfree
      injection hfree with h
      subst h
      exact ⟨rfl, fun u hu => getPending_setPending_ne _ _ _ _ hu⟩

/-- C10 witness: freeing page 12 for transaction 5 on a fresh free list
leaves the available list and every other transaction's pending list
untouched. -/
theorem free_frame_witness :
    (freelist.mk [] [(5, [786433])]).spans = newFreelist.spans ∧
      ∀ u, u ≠ 5 → getPending (freelist.mk [] [(5, [786433])]).pending u =
        getPending newFreelist.pending u :=
  free_frame newFreelist ⟨[], [(5, [786433])]⟩ 5 ⟨12, 0, 0, 0, []⟩ (by decide) (by decide)

/-- C7: refuted as stated — on a page in large-count form (count field 0xFFFF,
first payload word holding the true span count c, followed by the c spans),
read recovers only c − 1 spans: the source slices the payload as
`[idx:count]`, i.e. elements 1 through c−1, dropping the last span. -/
theorem read_overflow_drops_last_span (f : freelist) (p : page) (c : Nat)
    (l : List freespan) (hc : p.count = 0xFFFF) (hp : p.payload = (c : freespan) :: l)
    (hl : l.length = c) (h0 : 0 < c) :
    ((read f p).spans).length = c - 1 ∧ c - 1 < c := by
  refine ⟨?_, by omega⟩
  unfold read
  rw [if_pos hc]
  unfold readCore
  rw [hp]
  simp only [List.getD_cons_zero]
  rw [if_neg (by omega : ¬ c = 0)]
  obtain ⟨d, rfl⟩ : ∃ d, c = d + 1 := ⟨c - 1, by omega⟩
  simp [List.take_succ_cons, List.length_insertionSort, List.length_take, hl]

/-- C7 witness: a large-count page whose payload announces 3 spans but whose
read recovers only 2. -/
theorem read_overflow_drops_last_span_witness :
    ((read newFreelist ⟨0, 0, 0xFFFF, 0, [3, 131073, 262145, 393217]⟩).spans).length = 3 - 1 ∧
      3 - 1 < 3 :=
  read_overflow_drops_last_span newFreelist ⟨0, 0, 0xFFFF, 0, [3, 131073, 262145, 393217]⟩
    3 [131073, 262145, 393217] rfl rfl rfl (by decide)

end Bolt

namespace Bolt

/-- C8 amended: on a free list whose available spans are machine words whose
start is above page 1, allocate(0) leaves the state unchanged and returns the
start of the first available span — 0 when available is empty, a nonzero page
id otherwise (the size test `size < 0` never skips a span, so the scan stops
at the first span and trims an empty prefix off it). -/
theorem allocate_zero_spec (f : freelist)
    (h1 : ∀ s ∈ f.spans, 1 < fstart s) (h2 : ∀ s ∈ f.spans, s < 2 ^ 64) :
    allocate f 0 = some (fstart (f.spans.headD 0), f) := by
  obtain ⟨spans, pending⟩ := f
  cases spans with
  | nil => simp [allocate, allocGo, fstart]
  | cons s rest =>
    have hs1 : 1 < fstart s := h1 s (by simp)
    have hs2 : s < 2 ^ 64 := h2 s (by simp)
    have hstart : ¬ freespanMaxStart < fstart s := by
      simp only [fstart, freespanMaxStart, freespanStartBits, freespanSizeBits,
        freespanStartShift, Nat.not_lt]
      have h64 : (2 : Nat) ^ 64 = 2 ^ 16 * 2 ^ 48 := by norm_num
      exact Nat.le_pred_of_lt (Nat.div_lt_of_lt_mul (h64 ▸ hs2))
    have hsize : ¬ freespanMaxSize < fsize s := by
      have := fsize_lt s
      simp only [freespanMaxSize, freespanSizeMask, freespanSizeBits, Nat.not_lt]
      omega
    have hmk : mkFreespan (fstart s) (fsize s) = some s := by
      simp only [mkFreespan, if_neg hstart, if_neg hsize, pack_eq]
    simp [allocate, allocGo, Nat.not_le.mpr hs1, hmk]

/-- C8 amended witness: with available = [(3,5)], allocate(0) returns page 3
and the unchanged free list. -/
theorem allocate_zero_spec_witness :
    allocate ⟨[196613], []⟩ 0 = some (3, ⟨[196613], []⟩) :=
  allocate_zero_spec ⟨[196613], []⟩ (by decide) (by decide)

end Bolt

namespace Bolt

/-- The per-span side conditions under which allocate cannot panic: positive
length, start past the two reserved meta pages, and the page after the span
still within the 48-bit start bound. -/
def spanOK (s : freespan) : Prop :=
  0 < fsize s ∧ 2 ≤ fstart s ∧ fnext s ≤ freespanMaxStart

instance : DecidablePred spanOK := fun s =>
  inferInstanceAs (Decidable (_ ∧ _ ∧ _))

theorem allocGo_first_fit (n : Nat) (hn : 1 ≤ n) :
    ∀ l : List freespan, l.Pairwise spanR → (∀ s ∈ l, spanOK s) →
      ∃ r l', allocGo n l = some (r, l') ∧
        ((r = 0 ∧ l' = l ∧ ∀ s ∈ l, fsize s < n) ∨
         (∃ l1 s l2, l = l1 ++ s :: l2 ∧ (∀ u ∈ l1, fsize u < n) ∧ n ≤ fsize s ∧
            r = fstart s ∧ r ≠ 0 ∧
            l' = l1 ++ ((fstart s + n) * 2 ^ freespanStartShift + (fsize s - n)) :: l2 ∧
            ∀ p, fstart s ≤ p → p < fstart s + n → inSpans l p ∧ ¬ inSpans l' p)) := by
  intro l
  induction l with
  | nil =>
    intro _ _
    exact ⟨0, [], rfl, Or.inl ⟨rfl, rfl, by simp⟩⟩
  | cons s rest ih =>
    intro hpair hok
    obtain ⟨hsz, hst, hnx⟩ := hok s (List.mem_cons_self s rest)
    have hrel : ∀ u ∈ rest, spanR s u := (List.pairwise_cons.mp hpair).1
    have hpair' : rest.Pairwise spanR := (List.pairwise_cons.mp hpair).2
    have hok' : ∀ u ∈ rest, spanOK u := fun u hu => hok u (List.mem_cons_of_mem _ hu)
    have hguard : ¬ fstart s ≤ 1 := by omega
    by_cases hfit : fsize s < n
    · obtain ⟨r, rest', heq, hcase⟩ := ih hpair' hok'
      refine ⟨r, s :: rest', by simp [allocGo, hguard, hfit, heq], ?_⟩
      cases hcase with
      | inl h =>
        obtain ⟨hr, hrest, hall⟩ := h
        refine Or.inl ⟨hr, by rw [hrest], fun u hu => ?_⟩
        rcases List.mem_cons.mp hu with rfl | hu
        · exact hfit
        · exact hall u hu
      | inr h =>
        obtain ⟨l1, t, l2, hsplit, hl1, htfit, hrt, hrne, hl', hpages⟩ := h
        refine Or.inr ⟨s :: l1, t, l2, by rw [hsplit]; rfl, ?_, htfit, hrt, hrne,
          by rw [hl']; rfl, ?_⟩
        · intro u hu
          rcases List.mem_cons.mp hu with rfl | hu
          · exact hfit
          · exact hl1 u hu
        · intro p hp1 hp2
          have hmem : t ∈ rest := by
            rw [hsplit]; exact List.mem_append_right _ (List.mem_cons_self t l2)
          have hst2 : spanR s t := hrel t hmem
          obtain ⟨hin, hout⟩ := hpages p hp1 hp2
          constructor
          · obtain ⟨u, hu, hu1, hu2⟩ := hin
            exact ⟨u, List.mem_cons_of_mem _ hu, hu1, hu2⟩
          · rintro ⟨u, hu, hu1, hu2⟩
            rcases List.mem_cons.mp hu with rfl | hu
            · simp only [spanR] at hst2
              omega
            · exact hout ⟨u, hu, hu1, hu2⟩
    · push_neg at hfit
      have hstart_le : ¬ freespanMaxStart < fstart s + n := by
        simp only [fnext] at hnx
        omega
      have hsize_le : ¬ freespanMaxSize < fsize s - n := by
        have h16 := fsize_lt s
        simp only [freespanMaxSize, freespanSizeMask, freespanSizeBits] at h16 ⊢
        omega
      have hmk : mkFreespan (fstart s + n) (fsize s - n) =
          some ((fstart s + n) * 2 ^ freespanStartShift + (fsize s - n)) := by
        simp only [mkFreespan, if_neg hstart_le, if_neg hsize_le]
      have hnew_start : fstart ((fstart s + n) * 2 ^ freespanStartShift + (fsize s - n)) =
          fstart s + n :=
        fstart_pack _ _ (by have := fsize_lt s; omega)
      refine ⟨fstart s,
        ((fstart s + n) * 2 ^ freespanStartShift + (fsize s - n)) :: rest,
        by simp [allocGo, hguard, Nat.not_lt.mpr hfit, hmk], ?_⟩
      refine Or.inr ⟨[], s, rest, rfl, by simp, hfit, rfl, by omega, rfl, ?_⟩
      intro p hp1 hp2
      constructor
      · exact ⟨s, List.mem_cons_self s rest, hp1, by omega⟩
      · rintro ⟨u, hu, hu1, hu2⟩
        rcases List.mem_cons.mp hu with rfl | hu
        · rw [hnew_start] at hu1
          omega
        · have := hrel u hu
          simp only [spanR] at this
          omega

/-- C3 amended: on a free list whose available list is sorted-normalized
(pairwise strictly separated spans of positive length), with every span
starting at page 2 or later and ending strictly below the 48-bit start bound,
allocate(n) for n ≥ 1 returns 0 and changes nothing when no span has length
at least n; otherwise it returns the start of the first such span, that
span alone is replaced by itself minus its length-n prefix, and the n pages
starting at the returned id were available before the call and are not
available after it. -/
theorem allocate_first_fit (f : freelist) (n : Nat) (hn : 1 ≤ n)
    (hpair : f.spans.Pairwise spanR) (hok : ∀ s ∈ f.spans, spanOK s) :
    ∃ r f', allocate f n = some (r, f') ∧ f'.pending = f.pending ∧
      ((r = 0 ∧ f'.spans = f.spans ∧ ∀ s ∈ f.spans, fsize s < n) ∨
       (∃ l1 s l2, f.spans = l1 ++ s :: l2 ∧ (∀ u ∈ l1, fsize u < n) ∧ n ≤ fsize s ∧
          r = fstart s ∧ r ≠ 0 ∧
          f'.spans = l1 ++ ((fstart s + n) * 2 ^ freespanStartShift + (fsize s - n)) :: l2 ∧
          ∀ p, fstart s ≤ p → p < fstart s + n →
            inSpans f.spans p ∧ ¬ inSpans f'.spans p)) := by
  obtain ⟨r, l', heq, hcase⟩ := allocGo_first_fit n hn f.spans hpair hok
  exact ⟨r, { f with spans := l' }, by simp [allocate, heq], rfl, hcase⟩

/-- C3 amended witness: with available = [(3,5)], allocate(2) returns page 3
and trims the span to (5,3). -/
theorem allocate_first_fit_witness :
    ∃ r f', allocate ⟨[196613], []⟩ 2 = some (r, f') ∧
      f'.pending = (freelist.mk [196613] []).pending ∧
      ((r = 0 ∧ f'.spans = (freelist.mk [196613] []).spans ∧
          ∀ s ∈ (freelist.mk [196613] []).spans, fsize s < 2) ∨
       (∃ l1 s l2, (freelist.mk [196613] []).spans = l1 ++ s :: l2 ∧
          (∀ u ∈ l1, fsize u < 2) ∧ 2 ≤ fsize s ∧
          r = fstart s ∧ r ≠ 0 ∧
          f'.spans = l1 ++ ((fstart s + 2) * 2 ^ freespanStartShift + (fsize s - 2)) :: l2 ∧
          ∀ p, fstart s ≤ p → p < fstart s + 2 →
            inSpans (freelist.mk [196613] []).spans p ∧ ¬ inSpans f'.spans p)) :=
  allocate_first_fit ⟨[196613], []⟩ 2 (by omega) (by simp)
    (by intro s hs; simp only [List.mem_singleton] at hs; subst hs; exact (by decide))

end Bolt
